import Mathlib

/-!
Verification of the SSV (Space-Separated Values) engine: a shallow embedding
of the tokenizer, reader and writer state machines of the `ssv` crate
(`src/engine/tokenizer.rs`, `src/engine/reader.rs`, `src/engine/fluent_writer.rs`,
`src/engine/writer.rs`), instantiated at the byte domain (`BytesDomain`):
elements are bytes modelled as `Nat`, domain strings are `List Nat`.
-/

namespace SSV

/-! ## Domain (src/engine/domain.rs, BytesDomain) -/

/-- An element of the byte domain: a byte, modelled as `Nat`. -/
abbrev Elem := Nat

/-- `BytesDomain::LF` (`b'\n'`). -/
def LF : Elem := 10
/-- `BytesDomain::CR` (`b'\r'`). -/
def CR : Elem := 13
/-- `BytesDomain::QUOTE` (`b'"'`). -/
def QUOTE : Elem := 34
/-- `BytesDomain::HASH` (`b'#'`). -/
def HASH : Elem := 35
/-- The space byte `b' '`; the default spacing is one space (src/engine/options.rs). -/
def SPACE : Elem := 32
/-- The tab byte `b'\t'`. -/
def TAB : Elem := 9

/-- `BytesDomain::is_spacing_element`: `matches!(element, b' ' | b'\t')`. -/
def is_spacing_element (element : Elem) : Bool :=
  element == SPACE || element == TAB

/-- A domain string of the byte domain: a byte sequence. -/
abbrev DString := List Elem

/-- `DomainString::quotes`: a string of `length` repeated quote elements. -/
def DString.quotes (length : Nat) : DString :=
  List.replicate length QUOTE

/-! ## Position (src/engine/position.rs) -/

/-- `Position`: 1-based line and column numbers. -/
structure Position where
  line_number : Nat
  column_number : Nat
deriving DecidableEq, Repr

/-- `WithPosition<T>`: a value paired with a `Position`. -/
structure WithPosition (T : Type) where
  value : T
  position : Position
deriving DecidableEq, Repr

/-! ## Errors and line breaks (src/engine.rs) -/

/-- `LineBreak`: LF alone, or CR followed by LF. -/
inductive LineBreak where
  | Lf
  | CrLf
deriving DecidableEq, Repr

/-- `ReadError`: the read-side error taxonomy.  The payload of `IoError` is
not modelled (the underlying `std::io::Error` carries no information the
engine inspects). -/
inductive ReadError where
  | UnpairedQuote (position : Position)
  | UnclosedQuotedValue (position : Position)
  | IoError
deriving DecidableEq, Repr

/-- `WriteError`: the write-side error taxonomy. -/
inductive WriteError where
  | InvalidSpacing
  | IoError
deriving DecidableEq, Repr

/-! ## Tokens (src/engine/tokenizer.rs) -/

/-- `Token<D>` at the byte domain. -/
inductive Token where
  | UnquotedValue (value : DString)
  | QuotedValue (value : DString)
  | Spacing (spacing : DString)
  | LineBreak (lb : SSV.LineBreak)
  | Comment (comment : DString)
deriving DecidableEq, Repr

/-- One entry of the tokenizer's input element stream: a successfully read
element, or an IO error raised by the underlying reader. -/
inductive InElem where
  | ok (element : Elem)
  | ioError
deriving DecidableEq, Repr

/-- An item of the tokenizer's output stream: `ReadResult<WithPosition<Token>>`. -/
abbrev TokResult := Except ReadError (WithPosition Token)

/-! ## Tokenizer state machine (src/engine/tokenizer.rs) -/

/-- The tokenizer's `State`. -/
inductive Tokenizer.State where
  | Begin
  | UnquotedValue (value : DString)
  | QuoteInUnquotedValue (value : DString)
  | QuotesPrefix (count : Nat)
  | QuotedValue (value : DString)
  | QuoteInQuotedValue (value : DString)
  | Spacing (spacing : DString)
  | LfLineBreak
  | CrInLineBreak
  | Comment (comment : DString)
deriving DecidableEq, Repr

/-- The `next_element_is_lf!` macro: peek at the next input entry and test
whether it is a successfully read LF element. -/
def next_element_is_lf (elements : List InElem) : Bool :=
  match elements.head? with
  | some (InElem.ok element) => element == LF
  | _ => false

/-- `Tokenizer::process`: one step of the lexical state machine.
`position` is the tokenizer's position after consuming `element` (the field
`self.position`, used only to report error positions), and `nextIsLf` is the
result of the one-element lookahead `next_element_is_lf!`.  Returns the next
state and an optional emitted token, or an error. -/
def Tokenizer.process (position : Position) (nextIsLf : Bool) (element : Elem)
    (state : Tokenizer.State) : Except ReadError (Tokenizer.State × Option Token) :=
  match state with
  | .Begin =>
    if is_spacing_element element then
      .ok (.Spacing [element], none)
    else if element == QUOTE then
      .ok (.QuotesPrefix 1, none)
    else if element == LF then
      .ok (.Begin, some (Token.LineBreak LineBreak.Lf))
    else if element == CR && nextIsLf then
      .ok (.CrInLineBreak, none)
    else if element == HASH then
      .ok (.Comment [], none)
    else
      .ok (.UnquotedValue [element], none)
  | .UnquotedValue value =>
    if element == QUOTE then
      .ok (.QuoteInUnquotedValue value, none)
    else
      let next_state : Option Tokenizer.State :=
        if is_spacing_element element then some (.Spacing [element])
        else if element == LF then some .LfLineBreak
        else if element == CR && nextIsLf then some .CrInLineBreak
        else none
      match next_state with
      | some ns => .ok (ns, some (Token.UnquotedValue value))
      | none => .ok (.UnquotedValue (value ++ [element]), none)
  | .QuoteInUnquotedValue value =>
    if element == QUOTE then
      .ok (.UnquotedValue (value ++ [element]), none)
    else
      .error (ReadError.UnpairedQuote
        { position with column_number := position.column_number - 1 })
  | .QuotesPrefix count =>
    if element == QUOTE then
      .ok (.QuotesPrefix (count + 1), none)
    else if count % 2 == 0 then
      let next_state_after_quoted_value : Option Tokenizer.State :=
        if is_spacing_element element then some (.Spacing [element])
        else if element == LF then some .LfLineBreak
        else if element == CR && nextIsLf then some .CrInLineBreak
        else none
      match next_state_after_quoted_value with
      | some ns => .ok (ns, some (Token.QuotedValue (DString.quotes ((count - 2) / 2))))
      | none => .ok (.UnquotedValue (DString.quotes (count / 2) ++ [element]), none)
    else
      .ok (.QuotedValue (DString.quotes ((count - 1) / 2) ++ [element]), none)
  | .QuotedValue value =>
    if element == QUOTE then
      .ok (.QuoteInQuotedValue value, none)
    else
      .ok (.QuotedValue (value ++ [element]), none)
  | .QuoteInQuotedValue value =>
    if element == QUOTE then
      .ok (.QuotedValue (value ++ [element]), none)
    else
      let next_state_after_quoted_value : Option Tokenizer.State :=
        if is_spacing_element element then some (.Spacing [element])
        else if element == LF then some .LfLineBreak
        else if element == CR && nextIsLf then some .CrInLineBreak
        else none
      match next_state_after_quoted_value with
      | some ns => .ok (ns, some (Token.QuotedValue value))
      | none =>
        .error (ReadError.UnpairedQuote
          { position with column_number := position.column_number - 1 })
  | .Spacing spacing =>
    if is_spacing_element element then
      .ok (.Spacing (spacing ++ [element]), none)
    else
      let next_state : Tokenizer.State :=
        if element == QUOTE then .QuotesPrefix 1
        else if element == LF then .LfLineBreak
        else if element == CR && nextIsLf then .CrInLineBreak
        else .UnquotedValue [element]
      .ok (next_state, some (Token.Spacing spacing))
  | .LfLineBreak =>
    let next_state : Tokenizer.State :=
      if is_spacing_element element then .Spacing [element]
      else if element == QUOTE then .QuotesPrefix 1
      else if element == LF then .LfLineBreak
      else if element == CR && nextIsLf then .CrInLineBreak
      else if element == HASH then .Comment []
      else .UnquotedValue [element]
    .ok (next_state, some (Token.LineBreak LineBreak.Lf))
  | .CrInLineBreak =>
    -- Rust asserts `element == LF` here; the assertion always holds because
    -- this state is only entered after the lookahead confirmed an LF.
    .ok (.Begin, some (Token.LineBreak LineBreak.CrLf))
  | .Comment comment =>
    let next_line_break_state : Option Tokenizer.State :=
      if element == LF then some .LfLineBreak
      else if element == CR && nextIsLf then some .CrInLineBreak
      else none
    match next_line_break_state with
    | some ns => .ok (ns, some (Token.Comment comment))
    | none => .ok (.Comment (comment ++ [element]), none)

/-- `Tokenizer::finish`: end-of-input finalization.  `position` is the
tokenizer's final position.  The `CrInLineBreak` case is `unreachable!()` in
the source (the lookahead that creates that state guarantees a pending LF);
it is modelled as emitting no token. -/
def Tokenizer.finish (position : Position) (state : Tokenizer.State) :
    Except ReadError (Option Token) :=
  match state with
  | .Begin => .ok none
  | .UnquotedValue value => .ok (some (Token.UnquotedValue value))
  | .QuoteInUnquotedValue _ => .error (ReadError.UnpairedQuote position)
  | .QuotesPrefix count =>
    if count % 2 == 0 then
      .ok (some (Token.QuotedValue (DString.quotes ((count - 2) / 2))))
    else
      .error (ReadError.UnclosedQuotedValue
        { position with column_number := position.column_number + 1 })
  | .QuotedValue _ =>
    .error (ReadError.UnclosedQuotedValue
      { position with column_number := position.column_number + 1 })
  | .QuoteInQuotedValue value => .ok (some (Token.QuotedValue value))
  | .Spacing spacing => .ok (some (Token.Spacing spacing))
  | .LfLineBreak => .ok (some (Token.LineBreak LineBreak.Lf))
  | .CrInLineBreak => .ok none
  | .Comment comment => .ok (some (Token.Comment comment))

/-- The complete token stream produced by the tokenizer's iterator
(`Tokenizer::next` driven to exhaustion): `state` is the current lexical
state, `elements` the remaining input, `position` the position of the last
consumed element and `ctp` the `current_token_position` field.  Mirrors the
loop body of `Tokenizer::next`, collecting every yielded item; iteration
ends after the first error (the iterator is fused). -/
def Tokenizer.run (state : Tokenizer.State) (elements : List InElem)
    (position ctp : Position) : List TokResult :=
  match elements with
  | [] =>
    match Tokenizer.finish position state with
    | .error e => [.error e]
    | .ok none => []
    | .ok (some token) => [.ok ⟨token, ctp⟩]
  | .ioError :: _ => [.error ReadError.IoError]
  | .ok element :: rest =>
    let position := { position with column_number := position.column_number + 1 }
    let ctp := if state = Tokenizer.State.Begin then position else ctp
    match Tokenizer.process position (next_element_is_lf rest) element state with
    | .error e => [.error e]
    | .ok (next_state, tokenOpt) =>
      let ctp' := if tokenOpt.isSome ∧ next_state ≠ Tokenizer.State.Begin
        then position else ctp
      let position := if element == LF
        then { line_number := position.line_number + 1, column_number := 0 }
        else position
      match tokenOpt with
      | some token => Except.ok ⟨token, ctp⟩ :: Tokenizer.run next_state rest position ctp'
      | none => Tokenizer.run next_state rest position ctp'

/-- The token stream of a fresh tokenizer (`Tokenizer::new`: initial state
`Begin`, position `{1, 0}`, current token position `{0, 0}`) on the given
input. -/
def tokensOf (elements : List InElem) : List TokResult :=
  Tokenizer.run Tokenizer.State.Begin elements ⟨1, 0⟩ ⟨0, 0⟩

/-- Lift an error-free byte sequence to a tokenizer input stream. -/
def pureInput (bytes : List Nat) : List InElem :=
  bytes.map InElem.ok

/-! ## Reader (src/engine/reader.rs) -/

/-- A row: an ordered sequence of decoded values. -/
abbrev Row := List DString

/-- The reader's `State`. -/
inductive Reader.State where
  | Begin
  | Row (values : Row)
  | Comment
deriving DecidableEq, Repr

/-- The reader's `ProcessResult`; `Panic` models the `unreachable!()` branch
hit when a `Comment` token arrives in the `Row` state. -/
inductive Reader.ProcessResult where
  | ReturnRow (row : Row)
  | NextState (state : Reader.State)
  | Panic
deriving DecidableEq, Repr

/-- `Reader::process`: one step of the row-assembly state machine.  Note that
in the `Begin` state a `Spacing` token transitions to `Row(vec![])` (it is
not simply discarded), and in the `Comment` state every token returns to
`Begin` (the source's `matches!(token, Token::LineBreak(_))` is a discarded
no-op expression). -/
def Reader.process (token : Token) (state : Reader.State) : Reader.ProcessResult :=
  match state with
  | .Begin =>
    match token with
    | Token.UnquotedValue value | Token.QuotedValue value =>
      .NextState (.Row [value])
    | Token.Spacing _ => .NextState (.Row [])
    | Token.LineBreak _ => .ReturnRow []
    | Token.Comment _ => .NextState .Comment
  | .Row row =>
    match token with
    | Token.UnquotedValue value | Token.QuotedValue value =>
      .NextState (.Row (row ++ [value]))
    | Token.Spacing _ => .NextState (.Row row)
    | Token.LineBreak _ => .ReturnRow row
    | Token.Comment _ => .Panic
  | .Comment => .NextState .Begin

/-- `Reader::finish`: a partial row is yielded as a final row; `Begin` and
`Comment` yield nothing. -/
def Reader.finish (state : Reader.State) : Option Row :=
  match state with
  | .Row row => some row
  | .Begin | .Comment => none

/-- The complete row stream produced by the reader's iterator
(`Reader::next` driven to exhaustion) over a tokenizer item stream, paired
with a flag recording whether the `unreachable!()` branch was hit.
Iteration ends after the first propagated tokenizer error. -/
def Reader.run (state : Reader.State) (items : List TokResult) :
    List (Except ReadError Row) × Bool :=
  match items with
  | [] =>
    (match Reader.finish state with
     | some row => [.ok row]
     | none => [], false)
  | .error e :: _ => ([.error e], false)
  | .ok token :: rest =>
    match Reader.process token.value state with
    | .ReturnRow row =>
      let (rows, panicked) := Reader.run Reader.State.Begin rest
      (Except.ok row :: rows, panicked)
    | .NextState next_state => Reader.run next_state rest
    | .Panic => ([], true)

/-- The row stream of a fresh reader (`Reader::new`) on the given input. -/
def rowsOf (elements : List InElem) : List (Except ReadError Row) × Bool :=
  Reader.run Reader.State.Begin (tokensOf elements)

/-! ## Stateful iterators (`Tokenizer::next`, `Reader::next`)

The `run` functions above collect the whole output.  The claims about
fusedness are about individual calls to `next()`, so the iterator objects
and their `next` methods are modelled directly as state-passing functions. -/

/-- The `Tokenizer` iterator object: remaining input, `Option<State>`
(`None` after exhaustion or an error), and the two position fields. -/
structure Tokenizer where
  elements : List InElem
  state : Option Tokenizer.State
  position : Position
  current_token_position : Position
deriving DecidableEq, Repr

/-- `Tokenizer::new`. -/
def Tokenizer.new (elements : List InElem) : Tokenizer :=
  { elements := elements
    state := some Tokenizer.State.Begin
    position := ⟨1, 0⟩
    current_token_position := ⟨0, 0⟩ }

/-- The `while let` loop inside `Tokenizer::next`: consumes elements until a
token, an error, or end of input; returns the yielded item (if any) and the
tokenizer as left by the call. -/
def Tokenizer.nextLoop (state : Tokenizer.State) (elements : List InElem)
    (position ctp : Position) : Option TokResult × Tokenizer :=
  match elements with
  | [] =>
    match Tokenizer.finish position state with
    | .error e => (some (.error e), ⟨[], none, position, ctp⟩)
    | .ok none => (none, ⟨[], none, position, ctp⟩)
    | .ok (some token) => (some (.ok ⟨token, ctp⟩), ⟨[], none, position, ctp⟩)
  | .ioError :: rest => (some (.error ReadError.IoError), ⟨rest, none, position, ctp⟩)
  | .ok element :: rest =>
    let position := { position with column_number := position.column_number + 1 }
    let ctp := if state = Tokenizer.State.Begin then position else ctp
    match Tokenizer.process position (next_element_is_lf rest) element state with
    | .error e => (some (.error e), ⟨rest, none, position, ctp⟩)
    | .ok (next_state, tokenOpt) =>
      let ctp' := if tokenOpt.isSome ∧ next_state ≠ Tokenizer.State.Begin
        then position else ctp
      let position' := if element == LF
        then { line_number := position.line_number + 1, column_number := 0 }
        else position
      match tokenOpt with
      | some token =>
        (some (.ok ⟨token, ctp⟩), ⟨rest, some next_state, position', ctp'⟩)
      | none => Tokenizer.nextLoop next_state rest position' ctp'

/-- `Tokenizer::next`: `self.state.take()?` then the consuming loop. -/
def Tokenizer.next (t : Tokenizer) : Option TokResult × Tokenizer :=
  match t.state with
  | none => (none, t)
  | some s => Tokenizer.nextLoop s t.elements t.position t.current_token_position

/-- `k` further calls to `Tokenizer::next`, keeping only the final object. -/
def Tokenizer.skipN : Nat → Tokenizer → Tokenizer
  | 0, t => t
  | k + 1, t => Tokenizer.skipN k (Tokenizer.next t).2

/-- The `Reader` iterator object: its tokenizer and `Option<State>`. -/
structure Reader where
  tokenizer : Tokenizer
  state : Option Reader.State
deriving DecidableEq, Repr

/-- `Reader::new`. -/
def Reader.new (elements : List InElem) : Reader :=
  { tokenizer := Tokenizer.new elements, state := some Reader.State.Begin }

/-- The `while let` loop inside `Reader::next`, fuelled (the fuel is an upper
bound on the number of tokenizer items; every recursive call follows a
tokenizer item, and a tokenizer yields at most `elements.length + 1` items). -/
def Reader.nextLoop : Nat → Reader.State → Tokenizer →
    Option (Except ReadError Row) × Reader
  | 0, _, t => (none, ⟨t, none⟩)
  | fuel + 1, state, t =>
    match Tokenizer.next t with
    | (none, t') => ((Reader.finish state).map Except.ok, ⟨t', none⟩)
    | (some (.error e), t') => (some (.error e), ⟨t', none⟩)
    | (some (.ok token), t') =>
      match Reader.process token.value state with
      | .ReturnRow row => (some (.ok row), ⟨t', some Reader.State.Begin⟩)
      | .NextState next_state => Reader.nextLoop fuel next_state t'
      | .Panic => (none, ⟨t', none⟩)

/-- `Reader::next`. -/
def Reader.next (r : Reader) : Option (Except ReadError Row) × Reader :=
  match r.state with
  | none => (none, r)
  | some s => Reader.nextLoop (r.tokenizer.elements.length + 2) s r.tokenizer

/-- `k` further calls to `Reader::next`, keeping only the final object. -/
def Reader.skipN : Nat → Reader → Reader
  | 0, r => r
  | k + 1, r => Reader.skipN k (Reader.next r).2

/-! ## Options (src/engine/options.rs) -/

/-- Modelled from the spec: `Domain::is_valid_spacing` is declared on the
domain trait but its body is absent from the source snapshot; the spec says
a valid spacing is a non-empty string consisting only of spacing elements. -/
def is_valid_spacing (spacing : DString) : Bool :=
  !spacing.isEmpty && spacing.all is_spacing_element

/-- `Options`: the writer-wide defaults. -/
structure Options where
  default_spacing : DString
  default_line_break : LineBreak
  always_quoted : Bool
deriving DecidableEq, Repr

/-- `Options::new`: default spacing a single space, default line break LF,
`always_quoted` false (asserted by the `initial_values` test). -/
def Options.new : Options :=
  { default_spacing := [SPACE]
    default_line_break := LineBreak.Lf
    always_quoted := false }

/-! ## FluentWriter (src/engine/fluent_writer.rs) -/

/-- The fluent writer's `State`. -/
inductive WState where
  | Value
  | Spacing
  | LineBegin
  | Comment
deriving DecidableEq, Repr

/-- `FluentWriter` over an in-memory byte sink (`inner` is the byte sequence
written so far; the sink itself never fails, so sink IO errors do not arise
in the model). -/
structure FluentWriter where
  inner : List Nat
  state : WState
  options : Options
deriving DecidableEq, Repr

/-- `FluentWriter::new`: empty sink, initial state `LineBegin`, default
options. -/
def FluentWriter.new : FluentWriter :=
  { inner := [], state := WState.LineBegin, options := Options.new }

/-- `FluentWriter::write` / `write_raw`: append bytes to the sink. -/
def FluentWriter.write (self : FluentWriter) (bytes : List Nat) : FluentWriter :=
  { self with inner := self.inner ++ bytes }

/-- `FluentWriter::write_spacing_raw`: write the bytes and set the state to
`Spacing`. -/
def FluentWriter.write_spacing_raw (self : FluentWriter) (spacing_bytes : List Nat) :
    FluentWriter :=
  { self with inner := self.inner ++ spacing_bytes, state := WState.Spacing }

/-- `FluentWriter::write_this_line_break`. -/
def FluentWriter.write_this_line_break (self : FluentWriter) (line_break : LineBreak) :
    FluentWriter :=
  let bytes : List Nat :=
    match line_break with
    | LineBreak.Lf => [LF]
    | LineBreak.CrLf => [CR, LF]
  { self.write bytes with state := WState.LineBegin }

/-- `FluentWriter::write_line_break`: writes the default line break. -/
def FluentWriter.write_line_break (self : FluentWriter) : FluentWriter :=
  self.write_this_line_break self.options.default_line_break

/-- `PreparedValue`: the encoded bytes of a value and whether it must be
quoted. -/
structure PreparedValue where
  bytes : List Nat
  must_be_quoted : Bool
deriving DecidableEq, Repr

/-- One iteration of the loop in `PreparedValue::from`: push the byte,
double it if it is a quote, otherwise update the `only_quotes` and
`spacing_or_line_break` flags. -/
def prepared_step (acc : List Nat × Bool × Bool) (byte : Nat) :
    List Nat × Bool × Bool :=
  let (bytes, only_quotes, spacing_or_line_break) := acc
  let bytes := bytes ++ [byte]
  if byte == QUOTE then
    (bytes ++ [byte], only_quotes, spacing_or_line_break)
  else
    (bytes, false, spacing_or_line_break || (byte == LF || is_spacing_element byte))

/-- `PreparedValue::from`: scan the value once, doubling quotes and tracking
whether every element is a quote and whether any spacing or LF occurs. -/
def PreparedValue.from (original_bytes : List Nat) : PreparedValue :=
  let (bytes, only_quotes, spacing_or_line_break) :=
    original_bytes.foldl prepared_step ([], true, false)
  { bytes := bytes, must_be_quoted := only_quotes || spacing_or_line_break }

/-- The auto-insertion prelude of `FluentWriter::write_value_raw`: if the
state is `Value`, first write the default spacing (via `write_spacing_raw`);
if `Comment`, first write a line break. -/
def FluentWriter.value_state_adjusted (self : FluentWriter) : FluentWriter :=
  match self.state with
  | WState.Value => self.write_spacing_raw self.options.default_spacing
  | WState.Comment => self.write_line_break
  | _ => self

/-- `FluentWriter::write_value_raw`: auto-insert a delimiter if needed,
prepare the value, decide quoting, and write it. -/
def FluentWriter.write_value_raw (self : FluentWriter) (value : List Nat)
    (quoted : Bool) : FluentWriter :=
  let this := self.value_state_adjusted
  let prepared_value := PreparedValue.from value
  let quoted := quoted || prepared_value.must_be_quoted
    || this.options.always_quoted
    || (this.state == WState.LineBegin && prepared_value.bytes.head? == some HASH)
  let this := if quoted then this.write [QUOTE] else this
  let this := this.write prepared_value.bytes
  let this := if quoted then this.write [QUOTE] else this
  { this with state := WState.Value }

/-- `FluentWriter::write_value`. -/
def FluentWriter.write_value (self : FluentWriter) (value : List Nat) : FluentWriter :=
  self.write_value_raw value false

/-- `FluentWriter::write_quoted_value`. -/
def FluentWriter.write_quoted_value (self : FluentWriter) (value : List Nat) :
    FluentWriter :=
  self.write_value_raw value true

/-- `FluentWriter::write_spacing`: validate, auto-insert a line break after a
comment, then write raw. -/
def FluentWriter.write_spacing (self : FluentWriter) (spacing : List Nat) :
    Except WriteError FluentWriter :=
  if !is_valid_spacing spacing then
    .error WriteError.InvalidSpacing
  else
    let this :=
      match self.state with
      | WState.Comment => self.write_line_break
      | _ => self
    .ok (this.write_spacing_raw spacing)

/-- `FluentWriter::write_comment`: auto-insert a line break if needed, then
write HASH and the comment verbatim. -/
def FluentWriter.write_comment (self : FluentWriter) (comment : List Nat) :
    FluentWriter :=
  let this :=
    match self.state with
    | WState.Value | WState.Spacing | WState.Comment => self.write_line_break
    | _ => self
  let this := this.write [HASH]
  let this := this.write comment
  { this with state := WState.Comment }

/-! ## Writer / RowWriter (src/engine/writer.rs) -/

/-- `Writer`: holds `Option<FluentWriter>`; `None` marks the permanently
invalid (poisoned) state left behind by a failed call. -/
structure Writer where
  fluent : Option FluentWriter
deriving DecidableEq, Repr

/-- `Writer::new`. -/
def Writer.new : Writer :=
  { fluent := some FluentWriter.new }

/-- The outcome of one `Writer`/`RowWriter` method call: success, a returned
error, or a panic (the `expect(INVALID_WRITER_MESSAGE)` abort in
`take_fluent`). -/
inductive CallResult where
  | ok (writer : Writer)
  | err (error : WriteError) (writer : Writer)
  | panicked
deriving DecidableEq, Repr

/-- `Writer::use_fluent` (with `take_fluent` inlined): take the fluent
writer — panicking if it was already taken by a failed call — apply the
operation, and restore the result only on success.  On an error the fluent
writer stays taken, so the `Writer` is left poisoned. -/
def Writer.use_fluent (w : Writer)
    (f : FluentWriter → Except WriteError FluentWriter) : CallResult :=
  match w.fluent with
  | none => CallResult.panicked
  | some fluent =>
    match f fluent with
    | .ok fluent' => CallResult.ok { fluent := some fluent' }
    | .error e => CallResult.err e { fluent := none }

/-- `RowWriter::write_value` (methods of `RowWriter` delegate to
`Writer::use_fluent` on the originating writer). -/
def RowWriter.write_value (w : Writer) (value : List Nat) : CallResult :=
  w.use_fluent (fun fluent => .ok (fluent.write_value value))

/-- `RowWriter::write_spacing`. -/
def RowWriter.write_spacing (w : Writer) (spacing : List Nat) : CallResult :=
  w.use_fluent (fun fluent => fluent.write_spacing spacing)

/-! ## Analysis definitions used to state the claims -/

/-- Whether a token is a `Comment` token. -/
def tokenIsComment : Token → Bool
  | Token.Comment _ => true
  | _ => false

/-- Whether a token is a `LineBreak` token. -/
def tokenIsLineBreak : Token → Bool
  | Token.LineBreak _ => true
  | _ => false

/-- Whether a stream item is a successfully produced `Comment` token. -/
def itemIsComment : TokResult → Bool
  | .ok w => tokenIsComment w.value
  | .error _ => false

/-- Whether a stream item is a successfully produced `LineBreak` token. -/
def itemIsLineBreak : TokResult → Bool
  | .ok w => tokenIsLineBreak w.value
  | .error _ => false

/-- Whether a stream item is a successfully produced `UnquotedValue` token. -/
def itemIsUnquotedValue : TokResult → Bool
  | .ok w => match w.value with
    | Token.UnquotedValue _ => true
    | _ => false
  | .error _ => false

/-- `commentChain allowed items`: every `Comment` token in `items` occurs
either while `allowed` holds (at the very start) or immediately after a
`LineBreak` token — i.e. comments only occur at the start of a line. -/
def commentChain : Bool → List TokResult → Prop
  | _, [] => True
  | allowed, item :: rest =>
    (itemIsComment item = true → allowed = true) ∧
      commentChain (itemIsLineBreak item) rest

/-- The tokenizer states from which the next emitted token may be a
`Comment` token without an intervening non-`LineBreak` token. -/
def commentFlag : Tokenizer.State → Bool
  | Tokenizer.State.Begin => true
  | Tokenizer.State.Comment _ => true
  | _ => false

/-- The quoting condition of claim C2 exactly as the spec words it: quoting
was requested, or the value is composed solely of quote elements (an empty
value included), or it contains a spacing or LF element, or `always_quoted`
is set, or the value is the first thing written on the current line and its
first element is HASH. -/
def spec_must_quote (requested : Bool) (value : List Nat)
    (always_quoted first_on_line : Bool) : Bool :=
  requested
  || value.all (fun e => e == QUOTE)
  || value.any (fun e => is_spacing_element e || e == LF)
  || always_quoted
  || (first_on_line && value.head? == some HASH)

/-- The bytes of the value `#not-a-comment`. -/
def not_a_comment : List Nat :=
  [35, 110, 111, 116, 45, 97, 45, 99, 111, 109, 109, 101, 110, 116]

/-- The three-element alphabet of the round-trip property: a regular element
(the letter `a`), a spacing element (space), and the quote element. -/
def roundtrip_alphabet : List Nat := [97, SPACE, QUOTE]

/-- All strings over `roundtrip_alphabet` of length at most `n`. -/
def alphabet_strings : Nat → List (List Nat)
  | 0 => [[]]
  | n + 1 =>
    [] :: roundtrip_alphabet.flatMap
      (fun a => (alphabet_strings n).map (fun s => a :: s))

/-- Write `s` as the sole value of a single-row table (`write_value`
followed by a line break on a fresh `FluentWriter`) and read the produced
bytes back with the `Reader`. -/
def roundtrip_rows (s : List Nat) : List (Except ReadError Row) :=
  (rowsOf (pureInput ((FluentWriter.new.write_value s).write_line_break).inner)).1

end SSV

deriving instance DecidableEq for Except

namespace SSV

/-! ## Lemmas about the stateful iterators -/

/-- Every return site of the `next` loop either leaves the tokenizer's state
field `none` or yields a successfully produced token. -/
lemma nextLoop_state_or_ok : ∀ (elements : List InElem) (s : Tokenizer.State)
    (p c : Position),
    (Tokenizer.nextLoop s elements p c).2.state = none
    ∨ ∃ w, (Tokenizer.nextLoop s elements p c).1 = some (Except.ok w) := by
  intro elements
  induction elements with
  | nil =>
    intro s p c
    left
    simp only [Tokenizer.nextLoop]
    split <;> rfl
  | cons e rest ih =>
    intro s p c
    cases e with
    | ioError => left; rfl
    | ok element =>
      simp only [Tokenizer.nextLoop]
      split
      · left; rfl
      · split
        · right; exact ⟨_, rfl⟩
        · exact ih _ _ _

/-- `Tokenizer::next` on an exhausted (`state = None`) tokenizer returns no
item and leaves the tokenizer unchanged. -/
lemma tok_next_none {t : Tokenizer} (h : t.state = none) :
    Tokenizer.next t = (none, t) := by
  rcases t with ⟨els, st, p, c⟩
  cases st with
  | none => rfl
  | some s => exact absurd h (by simp)

/-- Skipping calls on an exhausted tokenizer changes nothing. -/
lemma tok_skipN_none {t : Tokenizer} (h : t.state = none) :
    ∀ k, Tokenizer.skipN k t = t := by
  intro k
  induction k with
  | zero => rfl
  | succ k ih => rw [Tokenizer.skipN, tok_next_none h]; exact ih

/-- A `Tokenizer::next` call that yields an error leaves the state field
`none`. -/
lemma tok_next_error_state {t t' : Tokenizer} {e : ReadError}
    (h : Tokenizer.next t = (some (Except.error e), t')) : t'.state = none := by
  rcases ht : t.state with _ | s
  · rw [tok_next_none ht] at h
    exact absurd (congrArg Prod.fst h) (by simp)
  · have hloop : Tokenizer.nextLoop s t.elements t.position t.current_token_position
        = (some (Except.error e), t') := by
      rw [← h]
      simp [Tokenizer.next, ht]
    rcases nextLoop_state_or_ok t.elements s t.position t.current_token_position with
      hn | ⟨w, hw⟩
    · rw [hloop] at hn; exact hn
    · rw [hloop] at hw; exact absurd hw (by simp)

/-- Every return site of the reader's `next` loop either leaves the reader's
state field `none` or yields a successfully produced row. -/
lemma readerLoop_state_or_ok : ∀ (fuel : Nat) (s : Reader.State) (t : Tokenizer),
    (Reader.nextLoop fuel s t).2.state = none
    ∨ ∃ row, (Reader.nextLoop fuel s t).1 = some (Except.ok row) := by
  intro fuel
  induction fuel with
  | zero => intro s t; left; rfl
  | succ fuel ih =>
    intro s t
    simp only [Reader.nextLoop]
    split
    · left; rfl
    · left; rfl
    · split
      · right; exact ⟨_, rfl⟩
      · exact ih _ _
      · left; rfl

/-- `Reader::next` on an exhausted reader returns no item and leaves the
reader unchanged. -/
lemma reader_next_none {r : Reader} (h : r.state = none) :
    Reader.next r = (none, r) := by
  rcases r with ⟨t, st⟩
  cases st with
  | none => rfl
  | some s => exact absurd h (by simp)

/-- Skipping calls on an exhausted reader changes nothing. -/
lemma reader_skipN_none {r : Reader} (h : r.state = none) :
    ∀ k, Reader.skipN k r = r := by
  intro k
  induction k with
  | zero => rfl
  | succ k ih => rw [Reader.skipN, reader_next_none h]; exact ih

/-- A `Reader::next` call that yields an error leaves the state field
`none`. -/
lemma reader_next_error_state {r r' : Reader} {e : ReadError}
    (h : Reader.next r = (some (Except.error e), r')) : r'.state = none := by
  rcases hr : r.state with _ | s
  · rw [reader_next_none hr] at h
    exact absurd (congrArg Prod.fst h) (by simp)
  · have hloop : Reader.nextLoop (r.tokenizer.elements.length + 2) s r.tokenizer
        = (some (Except.error e), r') := by
      rw [← h]
      simp [Reader.next, hr]
    rcases readerLoop_state_or_ok (r.tokenizer.elements.length + 2) s r.tokenizer with
      hn | ⟨row, hw⟩
    · rw [hloop] at hn; exact hn
    · rw [hloop] at hw; exact absurd hw (by simp)

/-! ## Theorems for the claims -/

set_option maxRecDepth 100000 in
/-- C1: for every string of length at most 5 over the alphabet
{regular element, spacing element, quote element}, writing it as the sole
value of a single-row table (`write_value` followed by a line break) and
reading the output back yields exactly one row containing that single
value. -/
theorem claim_C1 : ∀ s ∈ alphabet_strings 5, roundtrip_rows s = [Except.ok [s]] := by
  decide

/-- Witness for C1 at the concrete string `a`. -/
theorem claim_C1_witness :
    [97] ∈ alphabet_strings 5 ∧ roundtrip_rows [97] = [Except.ok [[97]]] :=
  ⟨by decide, claim_C1 [97] (by decide)⟩

/-- C3 counterexample: tokenizing spacing followed by `#c` yields a Spacing
token followed by an UnquotedValue token beginning with HASH — the second
token is not a Comment token, refuting the claimed `Spacing --HASH-->
Comment` transition. -/
theorem claim_C3_cex :
    tokensOf (pureInput [32, 35, 99]) =
      [Except.ok ⟨Token.Spacing [32], ⟨1, 1⟩⟩,
       Except.ok ⟨Token.UnquotedValue [35, 99], ⟨1, 2⟩⟩]
    ∧ (tokensOf (pureInput [32, 35, 99])).all (fun item => !itemIsComment item)
        = true := by
  decide

/-- C3 (amended): in the `Spacing(buf)` state a HASH element is not a
special case: the Spacing token is emitted and the tokenizer transitions to
`UnquotedValue([HASH])`, so a line of spacing followed by `#` and text
tokenizes as a Spacing token followed by an UnquotedValue token beginning
with HASH (not a Comment token). -/
theorem claim_C3_amended :
    (∀ (spacing : DString) (p : Position) (nlf : Bool),
      Tokenizer.process p nlf HASH (Tokenizer.State.Spacing spacing)
        = Except.ok (Tokenizer.State.UnquotedValue [HASH], some (Token.Spacing spacing)))
    ∧ tokensOf (pureInput [32, 35, 99]) =
        [Except.ok ⟨Token.Spacing [32], ⟨1, 1⟩⟩,
         Except.ok ⟨Token.UnquotedValue [35, 99], ⟨1, 2⟩⟩] :=
  ⟨fun _ _ _ => rfl, by decide⟩

/-- C4 counterexample: tokenizing two quotes followed by a space emits a
QuotedValue token (the empty quoted value), and no UnquotedValue token
appears anywhere in the stream, refuting the claimed UnquotedValue
emission. -/
theorem claim_C4_cex :
    tokensOf (pureInput [34, 34, 32]) =
      [Except.ok ⟨Token.QuotedValue [], ⟨1, 1⟩⟩,
       Except.ok ⟨Token.Spacing [32], ⟨1, 3⟩⟩]
    ∧ (tokensOf (pureInput [34, 34, 32])).all (fun item => !itemIsUnquotedValue item)
        = true := by
  decide

/-- C4 (amended): in the `QuotesPrefix(count)` state with `count` even (and
nonzero, as in every reachable such state), a terminating spacing, LF, or
CR-followed-by-LF element makes the tokenizer emit a QuotedValue token of
`(count-2)/2` quote elements. -/
theorem claim_C4_amended :
    ∀ (count : Nat) (p : Position) (nlf : Bool) (element : Elem),
      count % 2 = 0 → count ≠ 0 →
      (is_spacing_element element = true ∨ element = LF ∨ (element = CR ∧ nlf = true)) →
      ∃ ns, Tokenizer.process p nlf element (Tokenizer.State.QuotesPrefix count)
        = Except.ok (ns, some (Token.QuotedValue (DString.quotes ((count - 2) / 2)))) := by
  intro count p nlf element heven _ hterm
  have hq : (element == QUOTE) = false := by
    rcases hterm with h | h | ⟨h, _⟩
    · have h2 : element = SPACE ∨ element = TAB := by
        simpa [is_spacing_element] using h
      rcases h2 with rfl | rfl <;> decide
    · subst h; decide
    · subst h; decide
  have heq : (count % 2 == 0) = true := by simpa using heven
  rcases hterm with h | h | ⟨h, hn⟩
  · exact ⟨Tokenizer.State.Spacing [element], by
      simp [Tokenizer.process, hq, heq, h]⟩
  · exact ⟨Tokenizer.State.LfLineBreak, by
      subst h
      simp [Tokenizer.process, hq, heq, is_spacing_element, LF, CR, QUOTE, HASH, SPACE, TAB]⟩
  · exact ⟨Tokenizer.State.CrInLineBreak, by
      subst h; subst hn
      simp [Tokenizer.process, hq, heq, is_spacing_element, LF, CR, QUOTE, HASH, SPACE, TAB]⟩

/-- Witness for C4 (amended) at `count = 2` terminated by a space. -/
theorem claim_C4_amended_witness :
    (2 % 2 = 0) ∧ (2 ≠ 0) ∧
    (∃ ns, Tokenizer.process ⟨1, 3⟩ false SPACE (Tokenizer.State.QuotesPrefix 2)
      = Except.ok (ns, some (Token.QuotedValue (DString.quotes ((2 - 2) / 2))))) :=
  ⟨by decide, by decide,
    claim_C4_amended 2 ⟨1, 3⟩ false SPACE (by decide) (by decide)
      (Or.inl (by decide))⟩

/-- C5 counterexample: for the input consisting of a single spacing element
and no line break, the Reader yields one empty row — not no row at all. -/
theorem claim_C5_cex :
    (rowsOf (pureInput [32])).1 = [Except.ok []]
    ∧ (rowsOf (pureInput [32])).1 ≠ [] := by
  exact ⟨by decide, by decide⟩

/-- The encoding loop's byte accumulator only ever grows at the end, so the
produced bytes do not depend on the flag components of the accumulator and
factor through an empty initial accumulator. -/
lemma foldl_prepared_bytes : ∀ (v : List Nat) (bs : List Nat) (oq so oq' so' : Bool),
    (v.foldl prepared_step (bs, oq, so)).1
      = bs ++ (v.foldl prepared_step ([], oq', so')).1 := by
  intro v
  induction v with
  | nil => intro bs oq so oq' so'; simp
  | cons b rest ih =>
    intro bs oq so oq' so'
    rw [List.foldl_cons, List.foldl_cons]
    by_cases hb : (b == QUOTE) = true
    · simp only [prepared_step, hb, if_true]
      rw [ih _ _ _ true false]
      conv_rhs => rw [ih _ _ _ true false]
      simp
    · simp only [prepared_step, hb, if_false, Bool.false_eq_true]
      rw [ih _ _ _ true false]
      conv_rhs => rw [ih _ _ _ true false]
      simp

/-- The `only_quotes` flag computed by the encoding loop is the conjunction
of the initial flag with "every element is a quote". -/
lemma foldl_prepared_only_quotes : ∀ (v : List Nat) (bs : List Nat) (oq so : Bool),
    (v.foldl prepared_step (bs, oq, so)).2.1
      = (oq && v.all (fun e => e == QUOTE)) := by
  intro v
  induction v with
  | nil => intro bs oq so; simp
  | cons b rest ih =>
    intro bs oq so
    rw [List.foldl_cons]
    by_cases hb : (b == QUOTE) = true
    · simp [prepared_step, hb, ih]
    · simp [prepared_step, hb, ih]

/-- The `spacing_or_line_break` flag computed by the encoding loop is the
disjunction of the initial flag with "some element is LF or spacing". -/
lemma foldl_prepared_solb : ∀ (v : List Nat) (bs : List Nat) (oq so : Bool),
    (v.foldl prepared_step (bs, oq, so)).2.2
      = (so || v.any (fun e => e == LF || is_spacing_element e)) := by
  intro v
  induction v with
  | nil => intro bs oq so; simp
  | cons b rest ih =>
    intro bs oq so
    rw [List.foldl_cons]
    by_cases hb : (b == QUOTE) = true
    · have hbe : b = QUOTE := by simpa using hb
      subst hbe
      simp [prepared_step, ih, LF, QUOTE, is_spacing_element, SPACE, TAB]
    · simp [prepared_step, hb, ih, Bool.or_assoc]

/-- `must_be_quoted` holds exactly when the value is all quotes or contains
an LF or spacing element. -/
lemma prepared_must_be_quoted (v : List Nat) :
    (PreparedValue.from v).must_be_quoted
      = (v.all (fun e => e == QUOTE)
          || v.any (fun e => e == LF || is_spacing_element e)) := by
  show ((v.foldl prepared_step ([], true, false)).2.1
      || (v.foldl prepared_step ([], true, false)).2.2) = _
  rw [foldl_prepared_only_quotes, foldl_prepared_solb]
  simp

/-- Quote-doubling preserves the first element of the value. -/
lemma prepared_bytes_head (v : List Nat) :
    (PreparedValue.from v).bytes.head? = v.head? := by
  cases v with
  | nil => rfl
  | cons b rest =>
    have h : (PreparedValue.from (b :: rest)).bytes
        = (prepared_step ([], true, false) b).1
            ++ (rest.foldl prepared_step ([], true, false)).1 := by
      show ((b :: rest).foldl prepared_step ([], true, false)).1 = _
      rw [List.foldl_cons]
      exact foldl_prepared_bytes rest _ _ _ true false
    rw [h]
    by_cases hb : (b == QUOTE) = true <;> simp [prepared_step, hb]

/-- A value with no quote element is encoded verbatim. -/
lemma prepared_bytes_of_no_quote : ∀ (v : List Nat),
    v.all (fun e => !(e == QUOTE)) = true → (PreparedValue.from v).bytes = v := by
  have aux : ∀ (v : List Nat) (bs : List Nat) (oq so : Bool),
      v.all (fun e => !(e == QUOTE)) = true →
      (v.foldl prepared_step (bs, oq, so)).1 = bs ++ v := by
    intro v
    induction v with
    | nil => intro bs oq so _; simp
    | cons b rest ih =>
      intro bs oq so hall
      rw [List.all_cons] at hall
      have hb : (b == QUOTE) = false := by
        rcases Bool.and_eq_true_iff.mp hall with ⟨h1, _⟩
        simpa using h1
      rw [List.foldl_cons]
      have hrest : rest.all (fun e => !(e == QUOTE)) = true :=
        (Bool.and_eq_true_iff.mp hall).2
      simp only [prepared_step, hb, if_false, Bool.false_eq_true]
      rw [ih _ _ _ hrest]
      simp
  intro v hall
  exact aux v [] true false hall

/-- The `value_state_adjusted` prelude does not change the options. -/
lemma value_state_adjusted_options (self : FluentWriter) :
    self.value_state_adjusted.options = self.options := by
  rcases self with ⟨inner, state, options⟩
  cases state <;> rfl

/-- Reordering the two disjuncts inside the containment scan. -/
lemma any_lf_spacing_comm (v : List Nat) :
    v.any (fun e => e == LF || is_spacing_element e)
      = v.any (fun e => is_spacing_element e || e == LF) := by
  induction v with
  | nil => rfl
  | cons b rest ih =>
    cases hsp : is_spacing_element b <;> cases hlf : (b == LF) <;>
      simp [List.any_cons, ih, hsp, hlf]

/-- The output of `write_value_raw`: the auto-adjusted prefix followed by
the encoded value, quote-enclosed exactly when the spec's quoting condition
holds. -/
lemma write_value_raw_inner (self : FluentWriter) (value : List Nat) (req : Bool) :
    (self.write_value_raw value req).inner =
      self.value_state_adjusted.inner ++
        (if spec_must_quote req value self.options.always_quoted
            (self.value_state_adjusted.state == WState.LineBegin) = true
         then QUOTE :: (PreparedValue.from value).bytes ++ [QUOTE]
         else (PreparedValue.from value).bytes) := by
  have hcode :
      (req || (PreparedValue.from value).must_be_quoted
        || self.value_state_adjusted.options.always_quoted
        || (self.value_state_adjusted.state == WState.LineBegin
            && (PreparedValue.from value).bytes.head? == some HASH))
      = spec_must_quote req value self.options.always_quoted
          (self.value_state_adjusted.state == WState.LineBegin) := by
    rw [prepared_must_be_quoted, prepared_bytes_head, value_state_adjusted_options,
      any_lf_spacing_comm]
    simp [spec_must_quote, Bool.or_assoc]
  cases hsq : spec_must_quote req value self.options.always_quoted
      (self.value_state_adjusted.state == WState.LineBegin) with
  | true =>
    have hq : (req || (PreparedValue.from value).must_be_quoted
        || self.value_state_adjusted.options.always_quoted
        || (self.value_state_adjusted.state == WState.LineBegin
            && (PreparedValue.from value).bytes.head? == some HASH)) = true := by
      rw [hcode, hsq]
    simp [FluentWriter.write_value_raw, FluentWriter.write, hq]
  | false =>
    have hq : (req || (PreparedValue.from value).must_be_quoted
        || self.value_state_adjusted.options.always_quoted
        || (self.value_state_adjusted.state == WState.LineBegin
            && (PreparedValue.from value).bytes.head? == some HASH)) = false := by
      rw [hcode, hsq]
    simp [FluentWriter.write_value_raw, FluentWriter.write, hq]

/-- C2: `write_value` encloses the value in quotes exactly when the caller
requested quoting, or the value is only quotes (empty included), or it
contains a spacing or LF element, or `always_quoted` is set, or the value
is the first thing written on its line (the state after the auto-inserted
delimiter is `LineBegin`) and its first element is HASH; the empty value is
written as two quotes, and `#not-a-comment` is quoted as the first value on
a line but unquoted as a second value. -/
theorem claim_C2 :
    (∀ (self : FluentWriter) (value : List Nat) (req : Bool),
      (self.write_value_raw value req).inner =
        self.value_state_adjusted.inner ++
          (if spec_must_quote req value self.options.always_quoted
              (self.value_state_adjusted.state == WState.LineBegin) = true
           then QUOTE :: (PreparedValue.from value).bytes ++ [QUOTE]
           else (PreparedValue.from value).bytes))
    ∧ (FluentWriter.new.write_value []).inner = [QUOTE, QUOTE]
    ∧ (FluentWriter.new.write_value not_a_comment).inner
        = QUOTE :: not_a_comment ++ [QUOTE]
    ∧ ((FluentWriter.new.write_value [97]).write_value not_a_comment).inner
        = [97] ++ [SPACE] ++ not_a_comment :=
  ⟨fun self value req => write_value_raw_inner self value req,
   by decide, by decide, by decide⟩

/-- C10: a nonempty value containing a CR element but no LF, spacing or
quote element — with quoting not requested, `always_quoted` unset, and the
value not starting with HASH at the beginning of a line — is written
verbatim and unquoted: CR does not force quoting. -/
theorem claim_C10 (self : FluentWriter) (value : List Nat)
    (hne : value ≠ [])
    (hcr : value.any (fun e => e == CR) = true)
    (hlf : value.all (fun e => !(e == LF)) = true)
    (hsp : value.all (fun e => !(is_spacing_element e)) = true)
    (hqu : value.all (fun e => !(e == QUOTE)) = true)
    (halways : self.options.always_quoted = false)
    (hhash : ¬(self.value_state_adjusted.state = WState.LineBegin
                ∧ value.head? = some HASH)) :
    (self.write_value value).inner = self.value_state_adjusted.inner ++ value := by
  have hsq : spec_must_quote false value self.options.always_quoted
      (self.value_state_adjusted.state == WState.LineBegin) = false := by
    have hall : value.all (fun e => e == QUOTE) = false := by
      rcases value with _ | ⟨b, rest⟩
      · exact absurd rfl hne
      · rw [List.all_cons] at hqu ⊢
        rcases Bool.and_eq_true_iff.mp hqu with ⟨h1, _⟩
        simp only [Bool.not_eq_true'] at h1
        simp [h1]
    have hany : value.any (fun e => is_spacing_element e || e == LF) = false := by
      rw [List.any_eq_false]
      intro x hx
      have h1 := List.all_eq_true.mp hlf x hx
      have h2 := List.all_eq_true.mp hsp x hx
      simp only [Bool.not_eq_true'] at h1 h2
      simp [h1, h2]
    have hline : (self.value_state_adjusted.state == WState.LineBegin
        && value.head? == some HASH) = false := by
      by_cases hst : self.value_state_adjusted.state = WState.LineBegin
      · have hhd : value.head? ≠ some HASH := fun hh => hhash ⟨hst, hh⟩
        simp [hst, hhd]
      · simp [hst]
    simp [spec_must_quote, hall, hany, halways, hline]
  rw [FluentWriter.write_value, write_value_raw_inner, hsq]
  simp [prepared_bytes_of_no_quote value hqu]

/-- Witness for C10 at the value `c\r` on a fresh writer. -/
theorem claim_C10_witness :
    ([99, 13] ≠ ([] : List Nat))
    ∧ (FluentWriter.new.write_value [99, 13]).inner
        = FluentWriter.new.value_state_adjusted.inner ++ [99, 13] :=
  ⟨by decide,
   claim_C10 FluentWriter.new [99, 13] (by decide) (by decide) (by decide)
     (by decide) (by decide) (by decide) (by decide)⟩

/-- C6: `UnpairedQuote` errors carry the position whose column is that of
the offending unmatched quote (the quote was consumed one column before the
element that exposed it, hence `column - 1`; at end of input the position
itself), and `UnclosedQuotedValue` errors carry a position one column past
the end of input; concretely `abc"` fails with `UnpairedQuote` at column 4
and `"abc` fails with `UnclosedQuotedValue` at column 5. -/
theorem claim_C6 :
    (∀ (p : Position) (nlf : Bool) (element : Elem) (value : DString),
      (element == QUOTE) = false →
      Tokenizer.process p nlf element (Tokenizer.State.QuoteInUnquotedValue value)
        = Except.error (ReadError.UnpairedQuote ⟨p.line_number, p.column_number - 1⟩))
    ∧ (∀ (p : Position) (value : DString),
      Tokenizer.finish p (Tokenizer.State.QuotedValue value)
        = Except.error (ReadError.UnclosedQuotedValue ⟨p.line_number, p.column_number + 1⟩))
    ∧ tokensOf (pureInput [97, 98, 99, 34])
        = [Except.error (ReadError.UnpairedQuote ⟨1, 4⟩)]
    ∧ tokensOf (pureInput [34, 97, 98, 99])
        = [Except.error (ReadError.UnclosedQuotedValue ⟨1, 5⟩)] := by
  refine ⟨fun p nlf element value hq => ?_, fun p value => rfl, by decide, by decide⟩
  simp [Tokenizer.process, hq]

/-- Witness for C6 at a concrete lone quote exposed by the letter `a`. -/
theorem claim_C6_witness :
    ((97 == QUOTE) = false)
    ∧ Tokenizer.process ⟨1, 2⟩ false 97 (Tokenizer.State.QuoteInUnquotedValue [])
        = Except.error (ReadError.UnpairedQuote ⟨1, 1⟩) :=
  ⟨by decide, claim_C6.1 ⟨1, 2⟩ false 97 [] (by decide)⟩

/-- Helper for C5: from the `Spacing(buf)` state, a run of spacing elements
is absorbed into the buffer and end of input emits the single accumulated
Spacing token at the pending token position. -/
lemma run_spacing_replicate (n : Nat) : ∀ (buf : DString) (p c : Position),
    Tokenizer.run (Tokenizer.State.Spacing buf)
        (List.map InElem.ok (List.replicate n SPACE)) p c
      = [Except.ok ⟨Token.Spacing (buf ++ List.replicate n SPACE), c⟩] := by
  induction n with
  | zero => intro buf p c; simp [Tokenizer.run, Tokenizer.finish]
  | succ n ih =>
    intro buf p c
    rw [List.replicate_succ, List.map_cons]
    have hstep :
        Tokenizer.run (Tokenizer.State.Spacing buf)
            (InElem.ok SPACE :: List.map InElem.ok (List.replicate n SPACE)) p c
          = Tokenizer.run (Tokenizer.State.Spacing (buf ++ [SPACE]))
              (List.map InElem.ok (List.replicate n SPACE))
              { p with column_number := p.column_number + 1 } c := rfl
    rw [hstep, ih]
    simp

/-- C5 (amended): a Spacing token never contributes a value to a row, but in
the `Begin` state it starts an empty `Row` (it is not discarded there), so
an input consisting solely of spacing elements and no line break makes the
Reader reach end of input in the `Row` state and yield exactly one empty
row. -/
theorem claim_C5_amended :
    (∀ buf, Reader.process (Token.Spacing buf) Reader.State.Begin
      = Reader.ProcessResult.NextState (Reader.State.Row []))
    ∧ (∀ buf row, Reader.process (Token.Spacing buf) (Reader.State.Row row)
      = Reader.ProcessResult.NextState (Reader.State.Row row))
    ∧ (∀ n : Nat,
        (rowsOf (pureInput (List.replicate (n + 1) SPACE))).1 = [Except.ok []]) := by
  refine ⟨fun buf => rfl, fun buf row => rfl, fun n => ?_⟩
  have h1 : tokensOf (pureInput (List.replicate (n + 1) SPACE))
      = Tokenizer.run (Tokenizer.State.Spacing [SPACE])
          (List.map InElem.ok (List.replicate n SPACE)) ⟨1, 1⟩ ⟨1, 1⟩ := by
    rw [List.replicate_succ]
    rfl
  rw [rowsOf, h1, run_spacing_replicate]
  rfl

/-- C8: after any `Writer`/`RowWriter` method returns an error through
`use_fluent`, the fluent writer stays taken, and every subsequent call on
the poisoned `Writer` panics (the fail-fast abort of
`take_fluent().expect(...)`). -/
theorem claim_C8 :
    ∀ (w : Writer) (f : FluentWriter → Except WriteError FluentWriter)
      (e : WriteError) (w' : Writer),
      w.use_fluent f = CallResult.err e w' →
      ∀ (g : FluentWriter → Except WriteError FluentWriter),
        w'.use_fluent g = CallResult.panicked := by
  intro w f e w' h g
  unfold Writer.use_fluent at h ⊢
  rcases w with ⟨fl⟩
  cases fl with
  | none => exact absurd h (by simp)
  | some fluent =>
    simp only at h
    cases hf : f fluent with
    | ok fluent' => rw [hf] at h; exact absurd h (by simp)
    | error e0 =>
      rw [hf] at h
      injection h with h1 h2
      rw [← h2]

/-- A `commentChain` that holds under the strict flag holds under any
flag. -/
lemma commentChain_of_false {l : List TokResult} (h : commentChain false l) :
    ∀ b, commentChain b l := by
  intro b
  cases b
  · exact h
  · cases l with
    | nil => trivial
    | cons item rest => exact ⟨fun _ => rfl, h.2⟩

/-- A silent tokenizer step (one that emits no token) can only move into a
comment-capable state from a comment-capable state. -/
lemma process_silent_flag : ∀ (p : Position) (nlf : Bool) (element : Elem)
    (s s' : Tokenizer.State),
    Tokenizer.process p nlf element s = Except.ok (s', none) →
    commentFlag s' = true → commentFlag s = true := by
  intro p nlf element s s' h
  cases s <;> simp only [Tokenizer.process] at h <;> (repeat' split at h) <;>
    simp at h <;> subst h <;> simp [commentFlag]

/-- The state chosen after a value-terminating element (spacing, LF, or
CR-then-LF) is never comment-capable. -/
lemma value_terminator_flag {element : Elem} {nlf : Bool} {ns : Tokenizer.State}
    (h : (if is_spacing_element element = true
            then some (Tokenizer.State.Spacing [element])
          else if (element == LF) = true then some Tokenizer.State.LfLineBreak
          else if (element == CR && nlf) = true then some Tokenizer.State.CrInLineBreak
          else none) = some ns) :
    commentFlag ns = false := by
  repeat' split at h
  all_goals try exact Option.noConfusion h
  all_goals (simp only [Option.some.injEq] at h; subst h; rfl)

/-- The state chosen after a comment-terminating element (LF or CR-then-LF)
is never comment-capable. -/
lemma comment_terminator_flag {element : Elem} {nlf : Bool} {ns : Tokenizer.State}
    (h : (if (element == LF) = true then some Tokenizer.State.LfLineBreak
          else if (element == CR && nlf) = true then some Tokenizer.State.CrInLineBreak
          else none) = some ns) :
    commentFlag ns = false := by
  repeat' split at h
  all_goals try exact Option.noConfusion h
  all_goals (simp only [Option.some.injEq] at h; subst h; rfl)

/-- A token-emitting tokenizer step emits a Comment token only from a
comment-capable state, and moves into a comment-capable state only when the
emitted token is a LineBreak. -/
lemma process_emit_flag : ∀ (p : Position) (nlf : Bool) (element : Elem)
    (s s' : Tokenizer.State) (tk : Token),
    Tokenizer.process p nlf element s = Except.ok (s', some tk) →
    (tokenIsComment tk = true → commentFlag s = true) ∧
    (commentFlag s' = true → tokenIsLineBreak tk = true) := by
  intro p nlf element s s' tk h
  cases s <;> simp only [Tokenizer.process] at h <;> (repeat' split at h) <;>
    simp at h <;> (obtain ⟨h1, h2⟩ := h) <;> subst h1 <;> subst h2 <;>
    simp [commentFlag, tokenIsComment, tokenIsLineBreak] <;>
    first
    | exact value_terminator_flag (by assumption)
    | exact comment_terminator_flag (by assumption)

/-- End-of-input finalization emits a Comment token only from a
comment-capable state. -/
lemma finish_emit_flag : ∀ (p : Position) (s : Tokenizer.State) (tk : Token),
    Tokenizer.finish p s = Except.ok (some tk) →
    tokenIsComment tk = true → commentFlag s = true := by
  intro p s tk h
  cases s <;> simp only [Tokenizer.finish] at h <;> (repeat' split at h) <;>
    simp at h <;> subst h <;> simp [commentFlag, tokenIsComment]

/-- Every token stream produced by the tokenizer satisfies `commentChain`:
a Comment token appears only at the start of a line. -/
lemma chain_run : ∀ (elements : List InElem) (s : Tokenizer.State) (p c : Position),
    commentChain (commentFlag s) (Tokenizer.run s elements p c) := by
  intro elements
  induction elements with
  | nil =>
    intro s p c
    rcases hf : Tokenizer.finish p s with e | _ | token
    · simp only [Tokenizer.run, hf]
      exact ⟨by simp [itemIsComment], trivial⟩
    · simp only [Tokenizer.run, hf]
      trivial
    · simp only [Tokenizer.run, hf]
      refine ⟨fun hic => ?_, trivial⟩
      exact finish_emit_flag p s token hf (by simpa [itemIsComment, tokenIsComment] using hic)
  | cons e rest ih =>
    intro s p c
    cases e with
    | ioError =>
      simp only [Tokenizer.run]
      exact ⟨by simp [itemIsComment], trivial⟩
    | ok element =>
      simp only [Tokenizer.run]
      split
      · exact ⟨by simp [itemIsComment], trivial⟩
      · rename_i s' tkOpt hp
        cases tkOpt with
        | none =>
          by_cases hf' : commentFlag s' = true
          · rw [process_silent_flag _ _ _ _ _ hp hf', ← hf']
            exact ih s' _ _
          · rw [Bool.not_eq_true] at hf'
            refine commentChain_of_false ?_ _
            rw [← hf']
            exact ih s' _ _
        | some token =>
          refine ⟨fun hic => (process_emit_flag _ _ _ _ _ _ hp).1
            (by simpa [itemIsComment, tokenIsComment] using hic), ?_⟩
          by_cases hf' : commentFlag s' = true
          · have hlb : tokenIsLineBreak token = true :=
              (process_emit_flag _ _ _ _ _ _ hp).2 hf'
            simp only [itemIsLineBreak]
            rw [hlb, ← hf']
            exact ih s' _ _
          · rw [Bool.not_eq_true] at hf'
            refine commentChain_of_false ?_ _
            rw [← hf']
            exact ih s' _ _

/-- Running the reader over a `commentChain` item list never executes the
`unreachable!()` branch: the `Row` state is only ever current when the flag
is off, and then the next item cannot be a Comment token. -/
lemma reader_run_no_panic : ∀ (items : List TokResult) (state : Reader.State) (b : Bool),
    commentChain b items →
    (∀ row, state = Reader.State.Row row → b = false) →
    (Reader.run state items).2 = false := by
  intro items
  induction items with
  | nil => intro state b _ _; rfl
  | cons item rest ih =>
    intro state b hchain hrow
    cases item with
    | error e => rfl
    | ok tok =>
      have hc1 : itemIsComment (Except.ok tok) = true → b = true := hchain.1
      have hc2 : commentChain (itemIsLineBreak (Except.ok tok)) rest := hchain.2
      simp only [Reader.run]
      split
      · rename_i row hp
        exact ih _ _ hc2 (fun row' h => Reader.State.noConfusion h)
      · rename_i ns hp
        refine ih _ _ hc2 (fun row' hns => ?_)
        subst hns
        clear hrow hc1 hc2 ih
        rcases state with _ | row0 | _ <;> cases htok : tok.value <;>
          simp_all [Reader.process, itemIsLineBreak, tokenIsLineBreak]
      · rename_i hp
        exfalso
        rcases state with _ | row0 | _ <;> cases htok : tok.value <;>
          simp [Reader.process, htok] at hp
        have hb1 : b = true := hc1 (by simp [itemIsComment, tokenIsComment, htok])
        have hb2 : b = false := hrow row0 rfl
        rw [hb2] at hb1
        exact Bool.false_ne_true hb1

/-- C9: in every token stream the tokenizer produces, a Comment token occurs
only at the start of a line (the first item, or immediately after a
LineBreak token); consequently the Reader never receives a Comment token in
the `Row` state and its `unreachable!()` branch is never executed. -/
theorem claim_C9 : ∀ (elements : List InElem),
    commentChain true (tokensOf elements) ∧ (rowsOf elements).2 = false := by
  intro elements
  have hchain := chain_run elements Tokenizer.State.Begin ⟨1, 0⟩ ⟨0, 0⟩
  exact ⟨hchain,
    reader_run_no_panic _ _ _ hchain (fun row h => Reader.State.noConfusion h)⟩

/-- C7: the token and row streams are fused with respect to errors: once a
`next()` call returns an error item, every subsequent `next()` call on the
returned iterator (after any number of further calls) returns no item. -/
theorem claim_C7 :
    (∀ (t t' : Tokenizer) (e : ReadError),
      Tokenizer.next t = (some (Except.error e), t') →
      ∀ k : Nat, (Tokenizer.next (Tokenizer.skipN k t')).1 = none)
    ∧ (∀ (r r' : Reader) (e : ReadError),
      Reader.next r = (some (Except.error e), r') →
      ∀ k : Nat, (Reader.next (Reader.skipN k r')).1 = none) := by
  constructor
  · intro t t' e h k
    have hs := tok_next_error_state h
    rw [tok_skipN_none hs k, tok_next_none hs]
  · intro r r' e h k
    have hs := reader_next_error_state h
    rw [reader_skipN_none hs k, reader_next_none hs]

/-- Witness for C7: an input whose first element read fails with an IO
error; the tokenizer and the reader both yield the error once and then
nothing. -/
theorem claim_C7_witness :
    Tokenizer.next (Tokenizer.new [InElem.ioError])
      = (some (Except.error ReadError.IoError), ⟨[], none, ⟨1, 0⟩, ⟨0, 0⟩⟩)
    ∧ (Tokenizer.next (Tokenizer.skipN 1 ⟨[], none, ⟨1, 0⟩, ⟨0, 0⟩⟩)).1 = none
    ∧ Reader.next (Reader.new [InElem.ioError])
      = (some (Except.error ReadError.IoError), ⟨⟨[], none, ⟨1, 0⟩, ⟨0, 0⟩⟩, none⟩)
    ∧ (Reader.next (Reader.skipN 1 ⟨⟨[], none, ⟨1, 0⟩, ⟨0, 0⟩⟩, none⟩)).1 = none :=
  ⟨by decide,
   claim_C7.1 (Tokenizer.new [InElem.ioError]) ⟨[], none, ⟨1, 0⟩, ⟨0, 0⟩⟩
     ReadError.IoError (by decide) 1,
   by decide,
   claim_C7.2 (Reader.new [InElem.ioError]) ⟨⟨[], none, ⟨1, 0⟩, ⟨0, 0⟩⟩, none⟩
     ReadError.IoError (by decide) 1⟩

/-- Witness for C8: `write_spacing("abc")` on a fresh writer fails with
`InvalidSpacing` and poisons the writer; a subsequent `write_value` call
panics. -/
theorem claim_C8_witness :
    RowWriter.write_spacing Writer.new [97, 98, 99]
      = CallResult.err WriteError.InvalidSpacing { fluent := none }
    ∧ Writer.use_fluent { fluent := none }
        (fun fluent => Except.ok (fluent.write_value [97])) = CallResult.panicked :=
  ⟨by decide,
   claim_C8 Writer.new (fun fluent => fluent.write_spacing [97, 98, 99])
     WriteError.InvalidSpacing { fluent := none } (by decide)
     (fun fluent => Except.ok (fluent.write_value [97]))⟩

end SSV
